import Mathlib

/-!
Core masks of `Common++/src/SystemUtils.cpp`.

A shallow embedding of the core registry (`SystemCores::Core0 .. Core31`,
`SystemCores::IdToSystemCore`) and of the four mask conversions
(`getCoreMaskForAllMachineCores`, `createCoreMaskFromCoreVector`,
`createCoreMaskFromCoreIds`, `createCoreVectorFromCoreMask`).

Conventions of the embedding:

* `uint32_t` values are natural numbers below `2 ^ 32`; every operation whose
  C++ result is stored in a `CoreMask` is followed by an explicit `% 2 ^ 32`.
* A subscript of `IdToSystemCore` goes through `readIdToSystemCore`, which
  answers `none` outside the 32 entries. The C++ code has no bounds check, so a
  `none` is a read outside the array; the functions report it as
  `Outcome.outOfBoundsRead`.
* Every function that subscripts the table also returns the list of the
  subscripts it used, in order (`Run.reads`).
* The `while` loop of `createCoreVectorFromCoreMask` is run with fuel: one unit
  of fuel per execution of the loop body.
* `executeShellCommand` is embedded over the answer of `POPEN` and the bytes
  the spawned process writes; strings are lists of bytes, and its `while` loop
  is run with fuel in the same way.
-/

namespace SystemUtils

/-! ## Data model -/

/-- Modelled from the spec: the macro `MAX_NUM_OF_CORES` of `SystemUtils.h`,
which is not part of the sources at hand; the registry has exactly 32 entries. -/
def MAX_NUM_OF_CORES : Nat := 32

/-- Modelled from the spec: the width of the type `CoreMask` of `SystemUtils.h`
(a 32-bit unsigned integer); masks are natural numbers reduced modulo this
value, `2 ^ 32`. -/
def coreMaskModulus : Nat := 0x100000000

/-- Modelled from the spec: the struct `SystemCore` of `SystemUtils.h`, a pair of
the core's bit (`Mask`) and its ordinal (`Id`), in the order of the brace
initialisers `{ 0x01, 0 }` of the source. -/
structure SystemCore where
  Mask : Nat
  Id : Nat
  deriving DecidableEq, Repr

namespace SystemCores

def Core0 : SystemCore := { Mask := 0x01, Id := 0 }
def Core1 : SystemCore := { Mask := 0x02, Id := 1 }
def Core2 : SystemCore := { Mask := 0x04, Id := 2 }
def Core3 : SystemCore := { Mask := 0x08, Id := 3 }
def Core4 : SystemCore := { Mask := 0x10, Id := 4 }
def Core5 : SystemCore := { Mask := 0x20, Id := 5 }
def Core6 : SystemCore := { Mask := 0x40, Id := 6 }
def Core7 : SystemCore := { Mask := 0x80, Id := 7 }
def Core8 : SystemCore := { Mask := 0x100, Id := 8 }
def Core9 : SystemCore := { Mask := 0x200, Id := 9 }
def Core10 : SystemCore := { Mask := 0x400, Id := 10 }
def Core11 : SystemCore := { Mask := 0x800, Id := 11 }
def Core12 : SystemCore := { Mask := 0x1000, Id := 12 }
def Core13 : SystemCore := { Mask := 0x2000, Id := 13 }
def Core14 : SystemCore := { Mask := 0x4000, Id := 14 }
def Core15 : SystemCore := { Mask := 0x8000, Id := 15 }
def Core16 : SystemCore := { Mask := 0x10000, Id := 16 }
def Core17 : SystemCore := { Mask := 0x20000, Id := 17 }
def Core18 : SystemCore := { Mask := 0x40000, Id := 18 }
def Core19 : SystemCore := { Mask := 0x80000, Id := 19 }
def Core20 : SystemCore := { Mask := 0x100000, Id := 20 }
def Core21 : SystemCore := { Mask := 0x200000, Id := 21 }
def Core22 : SystemCore := { Mask := 0x400000, Id := 22 }
def Core23 : SystemCore := { Mask := 0x800000, Id := 23 }
def Core24 : SystemCore := { Mask := 0x1000000, Id := 24 }
def Core25 : SystemCore := { Mask := 0x2000000, Id := 25 }
def Core26 : SystemCore := { Mask := 0x4000000, Id := 26 }
def Core27 : SystemCore := { Mask := 0x8000000, Id := 27 }
def Core28 : SystemCore := { Mask := 0x10000000, Id := 28 }
def Core29 : SystemCore := { Mask := 0x20000000, Id := 29 }
def Core30 : SystemCore := { Mask := 0x40000000, Id := 30 }
def Core31 : SystemCore := { Mask := 0x80000000, Id := 31 }

/-- The table `SystemCores::IdToSystemCore[MAX_NUM_OF_CORES]`. -/
def IdToSystemCore : List SystemCore :=
  [ Core0, Core1, Core2, Core3, Core4, Core5, Core6, Core7,
    Core8, Core9, Core10, Core11, Core12, Core13, Core14, Core15,
    Core16, Core17, Core18, Core19, Core20, Core21, Core22, Core23,
    Core24, Core25, Core26, Core27, Core28, Core29, Core30, Core31 ]

end SystemCores

/-- The subscript `SystemCores::IdToSystemCore[i]` for a C++ `int` subscript:
the entry when `0 <= i < MAX_NUM_OF_CORES`, and `none` when the subscript lies
outside the array (the C++ code then reads memory that is not the table). -/
def readIdToSystemCore (i : Int) : Option SystemCore :=
  if 0 ≤ i ∧ i < (MAX_NUM_OF_CORES : Int) then SystemCores.IdToSystemCore[i.toNat]? else none

/-- The names of the spec's error taxonomy that concern the mask functions. -/
inductive CoreError where
  | OutOfRange
  deriving DecidableEq, Repr

/-- The ways a call of one of the mask functions can end.
`returned` is the normal return. `raised` is an error reported to the caller;
no function of `SystemUtils.cpp` has a `throw` or an error return, so no
function below produces it. `outOfBoundsRead i` is a subscript of
`IdToSystemCore` at `i` outside the table, undefined behaviour in C++.
`outOfFuel` is the model's answer when a loop is given too little fuel. -/
inductive Outcome (α : Type) where
  | returned (value : α)
  | raised (err : CoreError)
  | outOfBoundsRead (index : Int)
  | outOfFuel
  deriving DecidableEq, Repr

/-- A call's observable behaviour: the subscripts with which it indexed
`IdToSystemCore`, in order, and how it ended. -/
structure Run (α : Type) where
  reads : List Int
  outcome : Outcome α
  deriving DecidableEq, Repr

/-! ## The mask functions -/

/-- The `for` loop of `getCoreMaskForAllMachineCores`, for the subscripts `is`
that remain: `result = result | SystemCores::IdToSystemCore[i].Mask`. -/
def getCoreMaskForAllMachineCoresLoop : List Nat → Nat → List Int → Run Nat
  | [], result, reads => { reads := reads, outcome := .returned result }
  | i :: rest, result, reads =>
    match readIdToSystemCore (i : Int) with
    | none => { reads := reads ++ [(i : Int)], outcome := .outOfBoundsRead (i : Int) }
    | some core =>
      getCoreMaskForAllMachineCoresLoop rest ((result ||| core.Mask) % coreMaskModulus)
        (reads ++ [(i : Int)])

/-- The function `getCoreMaskForAllMachineCores`, with the value returned by
`getNumOfCores()` (an `int`, from the operating system) as a parameter. The
loop `for (int i = 0; i < numOfCores; i++)` visits `0, 1, .., numOfCores - 1`,
and nothing when `numOfCores <= 0`. -/
def getCoreMaskForAllMachineCores (numOfCores : Int) : Run Nat :=
  getCoreMaskForAllMachineCoresLoop (List.range numOfCores.toNat) 0 []

/-- The loop of `createCoreMaskFromCoreVector`: `result |= iter->Mask`. -/
def createCoreMaskFromCoreVectorLoop : List SystemCore → Nat → Nat
  | [], result => result
  | core :: rest, result =>
    createCoreMaskFromCoreVectorLoop rest ((result ||| core.Mask) % coreMaskModulus)

/-- The function `createCoreMaskFromCoreVector`. It subscripts no table. -/
def createCoreMaskFromCoreVector (cores : List SystemCore) : Nat :=
  createCoreMaskFromCoreVectorLoop cores 0

/-- The loop of `createCoreMaskFromCoreIds`:
`result |= SystemCores::IdToSystemCore[*iter].Mask`, with no check of `*iter`. -/
def createCoreMaskFromCoreIdsLoop : List Int → Nat → List Int → Run Nat
  | [], result, reads => { reads := reads, outcome := .returned result }
  | id :: rest, result, reads =>
    match readIdToSystemCore id with
    | none => { reads := reads ++ [id], outcome := .outOfBoundsRead id }
    | some core =>
      createCoreMaskFromCoreIdsLoop rest ((result ||| core.Mask) % coreMaskModulus)
        (reads ++ [id])

/-- The function `createCoreMaskFromCoreIds`. -/
def createCoreMaskFromCoreIds (coreIds : List Int) : Run Nat :=
  createCoreMaskFromCoreIdsLoop coreIds 0 []

/-- The variables of the loop of `createCoreVectorFromCoreMask`: the parameter
`coreMask` (shifted in place), the counter `i` and the vector `resultVec`. -/
structure MaskLoopState where
  coreMask : Nat
  i : Nat
  resultVec : List SystemCore
  deriving DecidableEq, Repr

/-- The loop `while (coreMask != 0)` of `createCoreVectorFromCoreMask`. One unit
of fuel is spent per execution of the body; the loop returns its final state
when the condition fails, and `outOfFuel` when the fuel is spent first. -/
def createCoreVectorFromCoreMaskLoop : Nat → MaskLoopState → List Int → Run MaskLoopState
  | 0, st, reads =>
    if st.coreMask = 0 then { reads := reads, outcome := .returned st }
    else { reads := reads, outcome := .outOfFuel }
  | fuel + 1, st, reads =>
    if st.coreMask = 0 then { reads := reads, outcome := .returned st }
    else if 1 &&& st.coreMask ≠ 0 then
      match readIdToSystemCore (st.i : Int) with
      | none => { reads := reads ++ [(st.i : Int)], outcome := .outOfBoundsRead (st.i : Int) }
      | some core =>
        createCoreVectorFromCoreMaskLoop fuel
          { coreMask := (st.coreMask >>> 1) % coreMaskModulus, i := st.i + 1,
            resultVec := st.resultVec ++ [core] }
          (reads ++ [(st.i : Int)])
    else
      createCoreVectorFromCoreMaskLoop fuel
        { coreMask := (st.coreMask >>> 1) % coreMaskModulus, i := st.i + 1,
          resultVec := st.resultVec }
        reads

/-- The function `createCoreVectorFromCoreMask(coreMask, resultVec)`, run with
`fuel` loop iterations allowed: `int i = 0;` and then the loop. The final state
holds the contents of `resultVec` after the call and the final value of `i`,
which is the number of iterations made. -/
def createCoreVectorFromCoreMask (fuel : Nat) (coreMask : Nat) (resultVec : List SystemCore) :
    Run MaskLoopState :=
  createCoreVectorFromCoreMaskLoop fuel { coreMask := coreMask, i := 0, resultVec := resultVec } []

/-- The contents of `resultVec` after a call of `createCoreVectorFromCoreMask`,
when the call returned. -/
def Run.resultVec (r : Run MaskLoopState) : Option (List SystemCore) :=
  match r.outcome with
  | .returned st => some st.resultVec
  | _ => none

/-! ## The shell executor -/

/-- The state of the `FILE*` that `POPEN` returns: the bytes of the process's
standard output that have not been read yet, and the end-of-file indicator that
`feof` tests. Bytes are natural numbers below 256. Read errors of the pipe are
not modelled: a read either delivers pending bytes or meets the end. -/
structure Pipe where
  pending : List Nat
  eof : Bool
  deriving DecidableEq, Repr

/-- The characters that one call `fgets(buffer, size, pipe)` stores, with
`room = size - 1`: it reads at most `room` characters, stops after a newline
(byte 10), and sets the end-of-file indicator when it meets the end of the
stream. -/
def fgetsChars : Nat → Pipe → List Nat × Pipe
  | 0, pipe => ([], pipe)
  | room + 1, pipe =>
    match pipe.pending with
    | [] => ([], { pending := [], eof := true })
    | c :: rest =>
      if c = 10 then ([c], { pending := rest, eof := pipe.eof })
      else
        ((c :: (fgetsChars room { pending := rest, eof := pipe.eof }).1),
          (fgetsChars room { pending := rest, eof := pipe.eof }).2)

/-- The library call `fgets(buffer, size, pipe)` for `size >= 2`: `none` is the
`NULL` it returns when the end of the stream is met before any character is
read; otherwise the characters it stored in `buffer` before the terminating
NUL. The second component is the pipe after the call. -/
def fgets (size : Nat) (pipe : Pipe) : Option (List Nat) × Pipe :=
  if (fgetsChars (size - 1) pipe).1 = [] then (none, (fgetsChars (size - 1) pipe).2)
  else (some (fgetsChars (size - 1) pipe).1, (fgetsChars (size - 1) pipe).2)

/-- What `result += buffer` appends: `buffer` is a `char[128]` read as a C
string, so the characters before its first NUL (byte 0). -/
def cString (buffer : List Nat) : List Nat :=
  buffer.takeWhile (fun c => decide (c ≠ 0))

/-- The bytes of the literal `"ERROR"` that `executeShellCommand` returns when
`POPEN` yields no pipe. -/
def errorSentinel : List Nat :=
  "ERROR".toList.map (fun c => c.toNat)

/-- A call's observable behaviour for the shell executor: how many times it
called `fgets`, and how it ended (the returned string as its bytes). -/
structure ShellRun where
  fgetsCalls : Nat
  outcome : Outcome (List Nat)
  deriving DecidableEq, Repr

/-- The loop `while(!feof(pipe))` of `executeShellCommand`, with `result` the
string accumulated so far and `calls` the calls of `fgets` made so far. One unit
of fuel is spent per execution of the body. -/
def executeShellCommandLoop : Nat → Pipe → List Nat → Nat → ShellRun
  | 0, pipe, result, calls =>
    if pipe.eof then { fgetsCalls := calls, outcome := .returned result }
    else { fgetsCalls := calls, outcome := .outOfFuel }
  | fuel + 1, pipe, result, calls =>
    if pipe.eof then { fgetsCalls := calls, outcome := .returned result }
    else
      match (fgets 128 pipe).1 with
      | none => executeShellCommandLoop fuel (fgets 128 pipe).2 result (calls + 1)
      | some buffer =>
        executeShellCommandLoop fuel (fgets 128 pipe).2 (result ++ cString buffer) (calls + 1)

/-- The function `executeShellCommand`. The macro `POPEN` comes from
`PlatformSpecificUtils.h`, which is not part of the sources at hand, so the
answer of `POPEN(command.c_str(), "r")` is a parameter: `none` when no pipe is
returned, `some output` for a pipe on which the process writes the bytes
`output` and then closes its standard output. `PCLOSE` has no effect on the
returned string and is not modelled. -/
def executeShellCommand (fuel : Nat) (POPEN : String → Option (List Nat)) (command : String) :
    ShellRun :=
  match POPEN command with
  | none => { fgetsCalls := 0, outcome := .returned errorSentinel }
  | some output => executeShellCommandLoop fuel { pending := output, eof := false } [] 0

/-! ## Notions of the specification -/

/-- The positions `0 .. 31` that hold a set bit of a mask, in ascending order. -/
def setBits (mask : Nat) : List Nat :=
  (List.range 32).filter (fun i => mask.testBit i)

/-- The population count of a 32-bit mask: how many of the positions `0 .. 31`
hold a set bit. -/
def popcount (mask : Nat) : Nat :=
  (setBits mask).length

/-- The scan `identitiesFromMask` as the specification words it: for `i` from 0
to 31, if bit `i` of `mask` is set, append `IdToSystemCore[i]` to the result. -/
def identitiesFromMask (mask : Nat) : List SystemCore :=
  (List.range 32).foldl
    (fun result i =>
      if mask.testBit i then result ++ (SystemCores.IdToSystemCore[i]?).toList else result)
    []

/-- The sorted, deduplicated elements of an index list, in ascending order. -/
def sortedUnique (coreIds : List Int) : List Int :=
  coreIds.toFinset.sort (· ≤ ·)

/-- The registry entry the specification prescribes for position `i`:
`CoreIdentity{bit: 1<<i, index: i}`. -/
def coreIdentity (i : Nat) : SystemCore :=
  { Mask := 1 <<< i, Id := i }

/-- The subscripts the loop of `createCoreVectorFromCoreMask` reads when it
starts at counter `i` with a mask of at most `k` bits: the set bits among the
low `k` positions, shifted by `i`. -/
def bitsFrom (k mask i : Nat) : List Nat :=
  ((List.range k).filter (fun j => mask.testBit j)).map (fun j => j + i)

/-- An index list in which some index lies outside `0 .. 31`. -/
def hasOutOfRange (coreIds : List Int) : Prop :=
  ∃ id ∈ coreIds, ¬ (0 ≤ id ∧ id < 32)

/-- The first index of a list that lies outside `0 .. 31`, if there is one. -/
def firstOutOfRange (coreIds : List Int) : Option Int :=
  coreIds.find? (fun id => decide (¬ (0 ≤ id ∧ id < 32)))

open SystemCores

/-! ## Lemmas on the registry and on bits -/


theorem coreMaskModulus_eq : coreMaskModulus = 2 ^ 32 := by
  norm_num [coreMaskModulus]

theorem IdToSystemCore_getElem? (i : Nat) (h : i < 32) :
    IdToSystemCore[i]? = some { Mask := 2 ^ i, Id := i } := by
  interval_cases i <;> rfl

theorem readIdToSystemCore_natCast (i : Nat) (h : i < 32) :
    readIdToSystemCore (i : Int) = some { Mask := 2 ^ i, Id := i } := by
  have h1 : (0 : Int) ≤ (i : Int) ∧ (i : Int) < (MAX_NUM_OF_CORES : Int) := by
    constructor
    · omega
    · simp only [MAX_NUM_OF_CORES]; omega
  simp only [readIdToSystemCore, h1, and_self, if_true, Int.toNat_ofNat]
  exact IdToSystemCore_getElem? i h

theorem readIdToSystemCore_inRange (id : Int) (h : 0 ≤ id ∧ id < 32) :
    readIdToSystemCore id = some { Mask := 2 ^ id.toNat, Id := id.toNat } := by
  have hcast : ((id.toNat : Nat) : Int) = id := Int.toNat_of_nonneg h.1
  have hlt : id.toNat < 32 := by omega
  have := readIdToSystemCore_natCast id.toNat hlt
  rwa [hcast] at this

theorem readIdToSystemCore_outOfRange (id : Int) (h : ¬ (0 ≤ id ∧ id < 32)) :
    readIdToSystemCore id = none := by
  have h1 : ¬ ((0 : Int) ≤ id ∧ id < (MAX_NUM_OF_CORES : Int)) := by
    simp only [MAX_NUM_OF_CORES]
    exact_mod_cast h
  simp only [readIdToSystemCore, h1, if_false]

theorem testBit_false_of_lt_modulus (m j : Nat) (hm : m < 2 ^ 32) (hj : 32 ≤ j) :
    m.testBit j = false := by
  apply Nat.testBit_lt_two_pow
  exact lt_of_lt_of_le hm (Nat.pow_le_pow_right (by norm_num) hj)

theorem or_mod_lt (a b : Nat) : (a ||| b) % coreMaskModulus < 2 ^ 32 := by
  rw [coreMaskModulus_eq]
  exact Nat.mod_lt _ (by norm_num)

theorem testBit_or_mod (a b j : Nat) :
    ((a ||| b) % coreMaskModulus).testBit j = (decide (j < 32) && (a.testBit j || b.testBit j)) := by
  rw [coreMaskModulus_eq, Nat.testBit_mod_two_pow, Nat.testBit_or]

theorem mem_setBits (mask j : Nat) : j ∈ setBits mask ↔ j < 32 ∧ mask.testBit j = true := by
  simp [setBits]

theorem setBits_pairwise (mask : Nat) : (setBits mask).Pairwise (· < ·) :=
  List.Pairwise.filter _ (List.pairwise_lt_range 32)

theorem bitsFrom_zero_mask (k i : Nat) : bitsFrom k 0 i = [] := by
  simp [bitsFrom]

theorem bitsFrom_eq_setBits (mask : Nat) : bitsFrom 32 mask 0 = setBits mask := by
  simp [bitsFrom, setBits]

theorem bitsFrom_succ (k mask i : Nat) :
    bitsFrom (k + 1) mask i
      = (if mask.testBit 0 then [i] else []) ++ bitsFrom k (mask >>> 1) (i + 1) := by
  have hshift : ∀ j, (mask >>> 1).testBit j = mask.testBit (j + 1) := by
    intro j
    rw [Nat.testBit_shiftRight, Nat.add_comm]
  simp only [bitsFrom, List.range_succ_eq_map, List.filter_cons, List.filter_map, List.map_map]
  have hf : ((fun j => mask.testBit j) ∘ Nat.succ) = (fun j => (mask >>> 1).testBit j) := by
    funext j
    simp [hshift]
  have hg : ((fun j => j + i) ∘ Nat.succ) = (fun j => j + (i + 1)) := by
    funext j
    simp only [Function.comp, Nat.succ_eq_add_one]
    omega
  rw [hf]
  by_cases hb : mask.testBit 0 = true
  · simp [hb, List.map_map, hg]
  · simp [hb, List.map_map, hg]

theorem filterMap_setBits (mask : Nat) :
    (setBits mask).filterMap (fun j => IdToSystemCore[j]?)
      = (setBits mask).map (fun j => ({ Mask := 2 ^ j, Id := j } : SystemCore)) := by
  rw [← List.filterMap_eq_map]
  apply List.filterMap_congr
  intro j hj
  rw [mem_setBits] at hj
  simp [IdToSystemCore_getElem? j hj.1]

theorem foldl_scan (mask : Nat) (l : List Nat) (acc : List SystemCore) :
    l.foldl
        (fun result i => if mask.testBit i then result ++ (IdToSystemCore[i]?).toList else result)
        acc
      = acc ++ (l.filter (fun i => mask.testBit i)).filterMap (fun j => IdToSystemCore[j]?) := by
  induction l generalizing acc with
  | nil => simp
  | cons i rest ih =>
    rw [List.foldl_cons, ih]
    by_cases hb : mask.testBit i = true
    · cases hget : IdToSystemCore[i]? <;> simp [hb, hget, List.filter_cons]
    · simp [hb, List.filter_cons]

theorem identitiesFromMask_eq (mask : Nat) :
    identitiesFromMask mask
      = (setBits mask).map (fun j => ({ Mask := 2 ^ j, Id := j } : SystemCore)) := by
  rw [← filterMap_setBits]
  simp [identitiesFromMask, foldl_scan, setBits]

theorem setBits_eq_nil_iff (mask : Nat) (hm : mask < 2 ^ 32) : setBits mask = [] ↔ mask = 0 := by
  constructor
  · intro h
    apply Nat.eq_of_testBit_eq
    intro j
    rw [Nat.zero_testBit]
    by_cases hj : j < 32
    · by_contra hne
      have hmem : j ∈ setBits mask := (mem_setBits mask j).2 ⟨hj, by simpa using hne⟩
      rw [h] at hmem
      exact List.not_mem_nil _ hmem
    · exact testBit_false_of_lt_modulus mask j hm (by omega)
  · intro h
    subst h
    simp [setBits]

/-! ## Lemmas on the loops -/


theorem createCoreVectorFromCoreMaskLoop_zero (st : MaskLoopState) (reads : List Int) :
    createCoreVectorFromCoreMaskLoop 0 st reads
      = if st.coreMask = 0 then { reads := reads, outcome := .returned st }
        else { reads := reads, outcome := .outOfFuel } := rfl

theorem createCoreVectorFromCoreMaskLoop_succ (fuel : Nat) (st : MaskLoopState)
    (reads : List Int) :
    createCoreVectorFromCoreMaskLoop (fuel + 1) st reads
      = if st.coreMask = 0 then { reads := reads, outcome := .returned st }
        else if 1 &&& st.coreMask ≠ 0 then
          match readIdToSystemCore (st.i : Int) with
          | none => { reads := reads ++ [(st.i : Int)], outcome := .outOfBoundsRead (st.i : Int) }
          | some core =>
            createCoreVectorFromCoreMaskLoop fuel
              { coreMask := (st.coreMask >>> 1) % coreMaskModulus, i := st.i + 1,
                resultVec := st.resultVec ++ [core] }
              (reads ++ [(st.i : Int)])
        else
          createCoreVectorFromCoreMaskLoop fuel
            { coreMask := (st.coreMask >>> 1) % coreMaskModulus, i := st.i + 1,
              resultVec := st.resultVec }
            reads := rfl

/-- The loop of `createCoreVectorFromCoreMask` on a mask of at most `k` bits,
started at counter `i` with `i + k <= 32`: there is a final counter of at most
`i + k` with which the loop returns whenever it has at least `k` units of fuel,
having read exactly the subscripts `bitsFrom k mask i` and appended their
entries. -/
theorem createCoreVectorFromCoreMaskLoop_spec (k : Nat) :
    ∀ (mask i : Nat), mask < 2 ^ k → i + k ≤ 32 →
      ∃ iEnd, iEnd ≤ i + k ∧
        ∀ (fuel : Nat) (vec : List SystemCore) (reads : List Int), k ≤ fuel →
          createCoreVectorFromCoreMaskLoop fuel { coreMask := mask, i := i, resultVec := vec } reads
            = { reads := reads ++ (bitsFrom k mask i).map (fun (j : Nat) => (j : Int)),
                outcome := .returned
                  { coreMask := 0, i := iEnd,
                    resultVec :=
                      vec ++ (bitsFrom k mask i).filterMap (fun j => IdToSystemCore[j]?) } } := by
  induction k with
  | zero =>
    intro mask i hm _
    have hm0 : mask = 0 := by simpa using hm
    subst hm0
    refine ⟨i, le_rfl, ?_⟩
    intro fuel vec reads _
    cases fuel <;>
      simp [createCoreVectorFromCoreMaskLoop_zero, createCoreVectorFromCoreMaskLoop_succ, bitsFrom]
  | succ k ih =>
    intro mask i hm hi
    by_cases hm0 : mask = 0
    · subst hm0
      refine ⟨i, by omega, ?_⟩
      intro fuel vec reads _
      cases fuel <;>
        simp [createCoreVectorFromCoreMaskLoop_zero, createCoreVectorFromCoreMaskLoop_succ,
          bitsFrom_zero_mask]
    · have hlt : mask >>> 1 < 2 ^ k := by
        rw [Nat.shiftRight_eq_div_pow, pow_one]
        rw [pow_succ] at hm
        omega
      have hmod : (mask >>> 1) % coreMaskModulus = mask >>> 1 := by
        apply Nat.mod_eq_of_lt
        have : (2 : Nat) ^ k ≤ 2 ^ 32 := Nat.pow_le_pow_right (by norm_num) (by omega)
        rw [coreMaskModulus_eq]
        omega
      have hi32 : i < 32 := by omega
      obtain ⟨iEnd, hle, heq⟩ := ih (mask >>> 1) (i + 1) hlt (by omega)
      refine ⟨iEnd, by omega, ?_⟩
      intro fuel vec reads hf
      obtain ⟨fuel, rfl⟩ : ∃ f, fuel = f + 1 := ⟨fuel - 1, by omega⟩
      have hf2 : k ≤ fuel := by omega
      rw [createCoreVectorFromCoreMaskLoop_succ]
      simp only [hm0, if_false, hmod, Nat.one_and_eq_mod_two, bitsFrom_succ, Nat.testBit_zero]
      by_cases hb : mask % 2 = 1
      · have hne : mask % 2 ≠ 0 := by omega
        simp only [hne, ne_eq, not_false_eq_true, if_true, readIdToSystemCore_natCast i hi32, hb,
          decide_True]
        simp [heq fuel _ _ hf2, IdToSystemCore_getElem? i hi32]
      · have he : mask % 2 = 0 := by omega
        simp only [he, ne_eq, not_true_eq_false, if_false, hb, decide_False]
        simp [heq fuel _ _ hf2]

/-- The function `createCoreVectorFromCoreMask` on a 32-bit mask: there is a
final counter of at most 32 with which it returns whenever it has at least 32
units of fuel, having read the subscripts of the set bits and appended their
entries to `resultVec`. -/
theorem createCoreVectorFromCoreMask_spec (mask : Nat) (hm : mask < 2 ^ 32) :
    ∃ iEnd, iEnd ≤ 32 ∧
      ∀ (fuel : Nat) (vec : List SystemCore), 32 ≤ fuel →
        createCoreVectorFromCoreMask fuel mask vec
          = { reads := (setBits mask).map (fun (j : Nat) => (j : Int)),
              outcome := .returned
                { coreMask := 0, i := iEnd,
                  resultVec :=
                    vec ++ (setBits mask).map
                      (fun j => ({ Mask := 2 ^ j, Id := j } : SystemCore)) } } := by
  obtain ⟨iEnd, hle, heq⟩ := createCoreVectorFromCoreMaskLoop_spec 32 mask 0 hm (by norm_num)
  refine ⟨iEnd, by omega, ?_⟩
  intro fuel vec hf
  rw [createCoreVectorFromCoreMask, heq fuel vec [] hf, bitsFrom_eq_setBits, filterMap_setBits]
  simp

theorem createCoreVectorFromCoreMask_resultVec (fuel mask : Nat) (vec : List SystemCore)
    (hf : 32 ≤ fuel) (hm : mask < 2 ^ 32) :
    (createCoreVectorFromCoreMask fuel mask vec).resultVec
      = some (vec ++ (setBits mask).map (fun j => ({ Mask := 2 ^ j, Id := j } : SystemCore))) := by
  obtain ⟨iEnd, _, heq⟩ := createCoreVectorFromCoreMask_spec mask hm
  rw [heq fuel vec hf]
  rfl

/-- The loop of `createCoreMaskFromCoreVector` from an accumulator below `2 ^ 32`:
the result is below `2 ^ 32` when the vector is not empty or the accumulator is,
and its bit `j` is set exactly when the accumulator's is or some element's
`Mask` has bit `j < 32` set. -/
theorem createCoreMaskFromCoreVectorLoop_testBit (cores : List SystemCore) :
    ∀ (result : Nat), result < 2 ^ 32 → ∀ j,
      (createCoreMaskFromCoreVectorLoop cores result).testBit j = true
        ↔ result.testBit j = true ∨ ∃ c ∈ cores, j < 32 ∧ c.Mask.testBit j = true := by
  induction cores with
  | nil =>
    intro result _ j
    simp [createCoreMaskFromCoreVectorLoop]
  | cons c rest ih =>
    intro result hr j
    rw [createCoreMaskFromCoreVectorLoop, ih _ (or_mod_lt result c.Mask) j, testBit_or_mod]
    by_cases hj : j < 32
    · simp only [hj, decide_True, Bool.true_and, Bool.or_eq_true, List.mem_cons, true_and,
        exists_eq_or_imp]
      tauto
    · have hrj : result.testBit j = false :=
        testBit_false_of_lt_modulus result j hr (by omega)
      simp [hj, hrj]

theorem createCoreMaskFromCoreVectorLoop_lt (cores : List SystemCore) :
    ∀ (result : Nat), result < 2 ^ 32 →
      createCoreMaskFromCoreVectorLoop cores result < 2 ^ 32 := by
  induction cores with
  | nil => intro result hr; simpa [createCoreMaskFromCoreVectorLoop] using hr
  | cons c rest ih =>
    intro result _
    rw [createCoreMaskFromCoreVectorLoop]
    exact ih _ (or_mod_lt result c.Mask)

/-- The loop of `createCoreMaskFromCoreIds` on indices all within `0 .. 31`, from
an accumulator below `2 ^ 32`: it returns, having read exactly the given
indices, a mask below `2 ^ 32` whose bit `j` is set exactly when the
accumulator's is or `j` is among the indices. -/
theorem createCoreMaskFromCoreIdsLoop_spec (coreIds : List Int) :
    ∀ (result : Nat) (reads : List Int), result < 2 ^ 32 →
      (∀ id ∈ coreIds, 0 ≤ id ∧ id < 32) →
      ∃ mask, createCoreMaskFromCoreIdsLoop coreIds result reads
          = { reads := reads ++ coreIds, outcome := .returned mask }
        ∧ mask < 2 ^ 32
        ∧ ∀ j : Nat, mask.testBit j = true ↔ result.testBit j = true ∨ (j : Int) ∈ coreIds := by
  induction coreIds with
  | nil =>
    intro result reads hr _
    exact ⟨result, by simp [createCoreMaskFromCoreIdsLoop], hr, by simp⟩
  | cons id rest ih =>
    intro result reads hr hin
    have hid : 0 ≤ id ∧ id < 32 := hin id (List.mem_cons_self _ _)
    have hrest : ∀ x ∈ rest, 0 ≤ x ∧ x < 32 := fun x hx => hin x (List.mem_cons_of_mem _ hx)
    obtain ⟨mask, heq, hlt, hbits⟩ :=
      ih ((result ||| 2 ^ id.toNat) % coreMaskModulus) (reads ++ [id])
        (or_mod_lt result _) hrest
    refine ⟨mask, ?_, hlt, ?_⟩
    · rw [createCoreMaskFromCoreIdsLoop, readIdToSystemCore_inRange id hid]
      simp only [heq]
      simp
    · intro j
      rw [hbits j, testBit_or_mod, Nat.testBit_two_pow]
      have hcast : ((id.toNat : Nat) : Int) = id := Int.toNat_of_nonneg hid.1
      by_cases hj : j < 32
      · have hiff : id.toNat = j ↔ (j : Int) = id := by omega
        simp only [hj, decide_True, Bool.true_and, Bool.or_eq_true, decide_eq_true_eq, hiff,
          List.mem_cons]
        tauto
      · have hrj : result.testBit j = false :=
          testBit_false_of_lt_modulus result j hr (by omega)
        have hne : ¬ (j : Int) = id := by omega
        simp [hj, hrj, hne]

/-- The loop of `createCoreMaskFromCoreIds` on a list with an index outside
`0 .. 31`: it ends in a read outside the table at the first such index, having
read the indices up to and including it. -/
theorem createCoreMaskFromCoreIdsLoop_outOfRange (coreIds : List Int) :
    ∀ (result : Nat) (reads : List Int), hasOutOfRange coreIds →
      ∃ bad, firstOutOfRange coreIds = some bad
        ∧ ¬ (0 ≤ bad ∧ bad < 32)
        ∧ createCoreMaskFromCoreIdsLoop coreIds result reads
            = { reads := reads ++ coreIds.takeWhile (fun id => decide (0 ≤ id ∧ id < 32)) ++ [bad],
                outcome := .outOfBoundsRead bad } := by
  induction coreIds with
  | nil =>
    intro result reads h
    obtain ⟨id, hmem, _⟩ := h
    exact absurd hmem (List.not_mem_nil _)
  | cons id rest ih =>
    intro result reads h
    by_cases hid : 0 ≤ id ∧ id < 32
    · have hrest : hasOutOfRange rest := by
        obtain ⟨x, hx, hbad⟩ := h
        rcases List.mem_cons.1 hx with rfl | hx
        · exact absurd hid hbad
        · exact ⟨x, hx, hbad⟩
      obtain ⟨bad, hfirst, hbad, heq⟩ :=
        ih ((result ||| 2 ^ id.toNat) % coreMaskModulus) (reads ++ [id]) hrest
      refine ⟨bad, ?_, hbad, ?_⟩
      · simpa [firstOutOfRange, List.find?_cons, hid] using hfirst
      · rw [createCoreMaskFromCoreIdsLoop, readIdToSystemCore_inRange id hid]
        simp only [heq]
        simp [List.takeWhile_cons, hid]
    · refine ⟨id, ?_, hid, ?_⟩
      · have hdec : decide (¬ (0 ≤ id ∧ id < 32)) = true := decide_eq_true hid
        rw [firstOutOfRange, List.find?_cons, hdec]
      · rw [createCoreMaskFromCoreIdsLoop, readIdToSystemCore_outOfRange id hid]
        simp [List.takeWhile_cons, hid]

/-! ## The claims -/


theorem eq_of_pairwise_lt_of_mem_iff {l₁ l₂ : List Int} (h₁ : l₁.Pairwise (· < ·))
    (h₂ : l₂.Pairwise (· < ·)) (hmem : ∀ x, x ∈ l₁ ↔ x ∈ l₂) : l₁ = l₂ := by
  have n₁ : l₁.Nodup := h₁.imp (fun h => ne_of_lt h)
  have n₂ : l₂.Nodup := h₂.imp (fun h => ne_of_lt h)
  have hperm : l₁.Perm l₂ := (List.perm_ext_iff_of_nodup n₁ n₂).2 hmem
  exact List.eq_of_perm_of_sorted hperm h₁ h₂

theorem setBits_cast_pairwise (mask : Nat) :
    ((setBits mask).map (fun (j : Nat) => (j : Int))).Pairwise (· < ·) := by
  rw [List.pairwise_map]
  exact (setBits_pairwise mask).imp (fun h => by exact_mod_cast h)

/-- The positions of the set bits of a mask whose set bits are the members of a
strictly increasing list of indices within `0 .. 31` are that list. -/
theorem setBits_cast_eq (mask : Nat) (S : List Int) (hsorted : S.Pairwise (· < ·))
    (hrange : ∀ id ∈ S, 0 ≤ id ∧ id < 32)
    (hbits : ∀ j : Nat, mask.testBit j = true ↔ (j : Int) ∈ S) :
    (setBits mask).map (fun (j : Nat) => (j : Int)) = S := by
  apply eq_of_pairwise_lt_of_mem_iff (setBits_cast_pairwise mask) hsorted
  intro x
  simp only [List.mem_map, mem_setBits]
  constructor
  · rintro ⟨j, ⟨_, hj⟩, rfl⟩
    exact (hbits j).1 hj
  · intro hx
    have hr := hrange x hx
    have hcast : ((x.toNat : Nat) : Int) = x := Int.toNat_of_nonneg hr.1
    refine ⟨x.toNat, ⟨by omega, (hbits x.toNat).2 (by rw [hcast]; exact hx)⟩, hcast⟩

/-- C1: round trip ids -> mask -> ids. For every strictly increasing list `S` of
indices all within `0 .. 31`, `createCoreMaskFromCoreIds S` returns a mask, and
`createCoreVectorFromCoreMask` on that mask with an empty `resultVec` returns
(within 32 iterations) a vector whose `Id` fields, read in order, are `S`. -/
theorem createCoreVectorFromCoreMask_createCoreMaskFromCoreIds (S : List Int)
    (hsorted : S.Pairwise (· < ·)) (hrange : ∀ id ∈ S, 0 ≤ id ∧ id < 32) :
    ∃ mask st,
      (createCoreMaskFromCoreIds S).outcome = .returned mask
        ∧ (createCoreVectorFromCoreMask 32 mask []).outcome = .returned st
        ∧ st.resultVec.map (fun c => (c.Id : Int)) = S := by
  obtain ⟨mask, heq, hlt, hbits⟩ :=
    createCoreMaskFromCoreIdsLoop_spec S 0 [] (by norm_num) hrange
  obtain ⟨iEnd, _, hrun⟩ := createCoreVectorFromCoreMask_spec mask hlt
  have hrun := hrun 32 [] le_rfl
  refine ⟨mask,
    { coreMask := 0, i := iEnd,
      resultVec := [] ++ (setBits mask).map (fun j => ({ Mask := 2 ^ j, Id := j } : SystemCore)) },
    ?_, ?_, ?_⟩
  · rw [createCoreMaskFromCoreIds, heq]
  · rw [hrun]
  · have hb : ∀ j : Nat, mask.testBit j = true ↔ (j : Int) ∈ S := by
      intro j
      rw [hbits j]
      simp
    simpa [List.map_map, Function.comp] using setBits_cast_eq mask S hsorted hrange hb

theorem createCoreVectorFromCoreMask_createCoreMaskFromCoreIds_witness :
    ∃ mask st,
      (createCoreMaskFromCoreIds [1, 4, 31]).outcome = .returned mask
        ∧ (createCoreVectorFromCoreMask 32 mask []).outcome = .returned st
        ∧ st.resultVec.map (fun c => (c.Id : Int)) = [1, 4, 31] :=
  createCoreVectorFromCoreMask_createCoreMaskFromCoreIds [1, 4, 31] (by decide) (by decide)

/-- C2: population count law. For every 32-bit mask `m`, the vector that
`createCoreVectorFromCoreMask` produces from an empty `resultVec` has as many
elements as `m` has set bits. -/
theorem createCoreVectorFromCoreMask_length (m : Nat) (hm : m < 2 ^ 32) :
    ∃ out, (createCoreVectorFromCoreMask 32 m []).resultVec = some out
      ∧ out.length = popcount m := by
  refine ⟨_, createCoreVectorFromCoreMask_resultVec 32 m [] le_rfl hm, ?_⟩
  simp [popcount]

theorem createCoreVectorFromCoreMask_length_witness :
    ∃ out, (createCoreVectorFromCoreMask 32 0x80000005 []).resultVec = some out
      ∧ out.length = popcount 0x80000005 :=
  createCoreVectorFromCoreMask_length 0x80000005 (by norm_num)

/-- C3, as stated, fails: on the lists `[32]` and `[-1]`, each with an index
outside `0 .. 31`, `createCoreMaskFromCoreIds` raises no `OutOfRange` error; it
subscripts `IdToSystemCore` at 32 and at -1, outside its 32 entries. -/
theorem createCoreMaskFromCoreIds_no_OutOfRange_error :
    hasOutOfRange [32] ∧ hasOutOfRange [-1]
      ∧ createCoreMaskFromCoreIds [32] = { reads := [32], outcome := .outOfBoundsRead 32 }
      ∧ createCoreMaskFromCoreIds [-1] = { reads := [-1], outcome := .outOfBoundsRead (-1) }
      ∧ ¬ (∀ coreIds : List Int, hasOutOfRange coreIds →
            (createCoreMaskFromCoreIds coreIds).outcome = .raised .OutOfRange
              ∧ ∀ r ∈ (createCoreMaskFromCoreIds coreIds).reads, 0 ≤ r ∧ r < 32) := by
  have h32 : hasOutOfRange [32] := ⟨32, List.mem_singleton.2 rfl, by decide⟩
  refine ⟨h32, ⟨-1, List.mem_singleton.2 rfl, by decide⟩, by decide, by decide, ?_⟩
  intro hclaim
  have h := (hclaim [32] h32).1
  revert h
  decide

/-- C3, amended: `createCoreMaskFromCoreIds` makes no range check and has no
error to raise. On every list with an index outside `0 .. 31` it subscripts
`IdToSystemCore` at the first such index, outside the 32 entries (undefined
behaviour in C++), after reading the entries of the in-range indices before it;
it does not end in an `OutOfRange` error. -/
theorem createCoreMaskFromCoreIds_outOfRange (coreIds : List Int)
    (h : hasOutOfRange coreIds) :
    ∃ bad, firstOutOfRange coreIds = some bad
      ∧ ¬ (0 ≤ bad ∧ bad < 32)
      ∧ createCoreMaskFromCoreIds coreIds
          = { reads := coreIds.takeWhile (fun id => decide (0 ≤ id ∧ id < 32)) ++ [bad],
              outcome := .outOfBoundsRead bad }
      ∧ (createCoreMaskFromCoreIds coreIds).outcome ≠ .raised .OutOfRange := by
  obtain ⟨bad, hfirst, hbad, heq⟩ := createCoreMaskFromCoreIdsLoop_outOfRange coreIds 0 [] h
  have heq2 : createCoreMaskFromCoreIds coreIds
      = { reads := coreIds.takeWhile (fun id => decide (0 ≤ id ∧ id < 32)) ++ [bad],
          outcome := .outOfBoundsRead bad } := by
    rw [createCoreMaskFromCoreIds, heq]
    simp
  refine ⟨bad, hfirst, hbad, heq2, ?_⟩
  rw [heq2]
  intro hne
  cases hne

theorem createCoreMaskFromCoreIds_outOfRange_witness :
    hasOutOfRange [3, 32, 1] ∧
    ∃ bad, firstOutOfRange [3, 32, 1] = some bad
      ∧ ¬ (0 ≤ bad ∧ bad < 32)
      ∧ createCoreMaskFromCoreIds [3, 32, 1]
          = { reads := [3, 32, 1].takeWhile (fun id => decide (0 ≤ id ∧ id < 32)) ++ [bad],
              outcome := .outOfBoundsRead bad }
      ∧ (createCoreMaskFromCoreIds [3, 32, 1]).outcome ≠ .raised .OutOfRange :=
  ⟨⟨32, by decide, by decide⟩,
    createCoreMaskFromCoreIds_outOfRange [3, 32, 1] ⟨32, by decide, by decide⟩⟩


theorem lowBits_testBit (k j : Nat) (hk : k ≤ 32) :
    ((2 ^ k - 1) % 2 ^ 32).testBit j = true ↔ j < k := by
  rw [Nat.testBit_mod_two_pow, Nat.testBit_two_pow_sub_one]
  simp only [Bool.and_eq_true, decide_eq_true_eq]
  omega

/-- C4: for every `n` with `0 <= n <= 32`, when `getNumOfCores` returns `n`,
`getCoreMaskForAllMachineCores` returns `(2 ^ n - 1) mod 2 ^ 32`, the mask
whose set bits are exactly the positions below `n`. -/
theorem getCoreMaskForAllMachineCores_lowBits (n : Int) (h0 : 0 ≤ n) (h32 : n ≤ 32) :
    (getCoreMaskForAllMachineCores n).outcome = .returned ((2 ^ n.toNat - 1) % 2 ^ 32)
      ∧ ∀ j : Nat, ((2 ^ n.toNat - 1) % 2 ^ 32).testBit j = true ↔ (j : Int) < n := by
  obtain ⟨k, rfl⟩ := Int.eq_ofNat_of_zero_le h0
  have hk : k ≤ 32 := by omega
  constructor
  · simp only [Int.toNat_ofNat]
    clear h0 h32
    interval_cases k <;> decide
  · intro j
    simp only [Int.toNat_ofNat]
    rw [lowBits_testBit k j hk]
    omega

theorem getCoreMaskForAllMachineCores_lowBits_witness :
    ((0 : Int) ≤ 32 ∧ (32 : Int) ≤ 32)
      ∧ (getCoreMaskForAllMachineCores 32).outcome
          = .returned ((2 ^ (32 : Int).toNat - 1) % 2 ^ 32)
      ∧ ∀ j : Nat, ((2 ^ (32 : Int).toNat - 1) % 2 ^ 32).testBit j = true ↔ (j : Int) < 32 :=
  ⟨by decide, getCoreMaskForAllMachineCores_lowBits 32 (by decide) (by decide)⟩

/-- C5: registry invariant. The table has 32 entries; entry `i` is the named
constant `Core_i`; and for every `i` in `0 .. 31` the entry's `Mask` is
`1 << i` as a 32-bit value, with bit `i` its only set bit, and its `Id` is `i`. -/
theorem IdToSystemCore_invariant :
    IdToSystemCore.length = MAX_NUM_OF_CORES
      ∧ (IdToSystemCore[0]? = some Core0 ∧ IdToSystemCore[1]? = some Core1
        ∧ IdToSystemCore[2]? = some Core2 ∧ IdToSystemCore[3]? = some Core3
        ∧ IdToSystemCore[4]? = some Core4 ∧ IdToSystemCore[5]? = some Core5
        ∧ IdToSystemCore[6]? = some Core6 ∧ IdToSystemCore[7]? = some Core7
        ∧ IdToSystemCore[8]? = some Core8 ∧ IdToSystemCore[9]? = some Core9
        ∧ IdToSystemCore[10]? = some Core10 ∧ IdToSystemCore[11]? = some Core11
        ∧ IdToSystemCore[12]? = some Core12 ∧ IdToSystemCore[13]? = some Core13
        ∧ IdToSystemCore[14]? = some Core14 ∧ IdToSystemCore[15]? = some Core15
        ∧ IdToSystemCore[16]? = some Core16 ∧ IdToSystemCore[17]? = some Core17
        ∧ IdToSystemCore[18]? = some Core18 ∧ IdToSystemCore[19]? = some Core19
        ∧ IdToSystemCore[20]? = some Core20 ∧ IdToSystemCore[21]? = some Core21
        ∧ IdToSystemCore[22]? = some Core22 ∧ IdToSystemCore[23]? = some Core23
        ∧ IdToSystemCore[24]? = some Core24 ∧ IdToSystemCore[25]? = some Core25
        ∧ IdToSystemCore[26]? = some Core26 ∧ IdToSystemCore[27]? = some Core27
        ∧ IdToSystemCore[28]? = some Core28 ∧ IdToSystemCore[29]? = some Core29
        ∧ IdToSystemCore[30]? = some Core30 ∧ IdToSystemCore[31]? = some Core31)
      ∧ ∀ i : Fin 32, ∃ core, IdToSystemCore[i.val]? = some core
          ∧ core = coreIdentity i.val
          ∧ core.Mask = (1 <<< i.val) % coreMaskModulus
          ∧ core.Id = i.val
          ∧ popcount core.Mask = 1
          ∧ ∀ j : Nat, core.Mask.testBit j = true ↔ j = i.val := by
  refine ⟨rfl, by decide, ?_⟩
  intro i
  refine ⟨{ Mask := 2 ^ i.val, Id := i.val }, IdToSystemCore_getElem? i.val i.isLt, ?_, ?_, rfl,
    ?_, ?_⟩
  · simp [coreIdentity, Nat.shiftLeft_eq]
  · have hlt : 2 ^ i.val < 2 ^ 32 := Nat.pow_lt_pow_right (by norm_num) i.isLt
    simp only [Nat.shiftLeft_eq, one_mul, coreMaskModulus_eq]
    exact (Nat.mod_eq_of_lt hlt).symm
  · revert i
    decide
  · intro j
    simp only [Nat.testBit_two_pow, decide_eq_true_eq]
    exact eq_comm

/-- C6: refinement. For every 32-bit mask `m`, starting from an empty vector,
the shift-until-zero loop of `createCoreVectorFromCoreMask` returns the
sequence of the fixed-bound scan `identitiesFromMask`; the `Id` fields of that
sequence are the positions of the set bits of `m` in strictly ascending order,
and its members are exactly the registry entries of the set bits. -/
theorem createCoreVectorFromCoreMask_eq_identitiesFromMask (m : Nat) (hm : m < 2 ^ 32) :
    (createCoreVectorFromCoreMask 32 m []).resultVec = some (identitiesFromMask m)
      ∧ (identitiesFromMask m).map (fun c => c.Id) = setBits m
      ∧ ((identitiesFromMask m).map (fun c => c.Id)).Pairwise (· < ·)
      ∧ ∀ c, c ∈ identitiesFromMask m
          ↔ ∃ i, i < 32 ∧ m.testBit i = true ∧ IdToSystemCore[i]? = some c := by
  have hids : (identitiesFromMask m).map (fun c => c.Id) = setBits m := by
    rw [identitiesFromMask_eq, List.map_map]
    exact List.map_id _
  refine ⟨?_, hids, ?_, ?_⟩
  · rw [createCoreVectorFromCoreMask_resultVec 32 m [] le_rfl hm, identitiesFromMask_eq]
    simp
  · rw [hids]
    exact setBits_pairwise m
  · intro c
    rw [identitiesFromMask_eq]
    simp only [List.mem_map, mem_setBits]
    constructor
    · rintro ⟨i, ⟨hi, hb⟩, rfl⟩
      exact ⟨i, hi, hb, IdToSystemCore_getElem? i hi⟩
    · rintro ⟨i, hi, hb, hget⟩
      rw [IdToSystemCore_getElem? i hi] at hget
      exact ⟨i, ⟨hi, hb⟩, Option.some.inj hget⟩

theorem createCoreVectorFromCoreMask_eq_identitiesFromMask_witness :
    (createCoreVectorFromCoreMask 32 0x80000005 []).resultVec
        = some (identitiesFromMask 0x80000005)
      ∧ (identitiesFromMask 0x80000005).map (fun c => c.Id) = setBits 0x80000005
      ∧ ((identitiesFromMask 0x80000005).map (fun c => c.Id)).Pairwise (· < ·)
      ∧ ∀ c, c ∈ identitiesFromMask 0x80000005
          ↔ ∃ i, i < 32 ∧ Nat.testBit 0x80000005 i = true ∧ IdToSystemCore[i]? = some c :=
  createCoreVectorFromCoreMask_eq_identitiesFromMask 0x80000005 (by norm_num)

/-- C7: `createCoreMaskFromCoreVector` is order-independent and
duplicate-tolerant. Two vectors of cores with the same set of elements, in any
order and with any multiplicities, give the same mask. -/
theorem createCoreMaskFromCoreVector_congr (cores₁ cores₂ : List SystemCore)
    (hset : ∀ c, c ∈ cores₁ ↔ c ∈ cores₂) :
    createCoreMaskFromCoreVector cores₁ = createCoreMaskFromCoreVector cores₂ := by
  apply Nat.eq_of_testBit_eq
  intro j
  have h₁ := createCoreMaskFromCoreVectorLoop_testBit cores₁ 0 (by norm_num) j
  have h₂ := createCoreMaskFromCoreVectorLoop_testBit cores₂ 0 (by norm_num) j
  have hiff : (createCoreMaskFromCoreVector cores₁).testBit j = true
      ↔ (createCoreMaskFromCoreVector cores₂).testBit j = true := by
    rw [createCoreMaskFromCoreVector, createCoreMaskFromCoreVector, h₁, h₂]
    simp only [hset]
  exact Bool.eq_iff_iff.2 hiff

theorem createCoreMaskFromCoreVector_congr_witness :
    (∀ c, c ∈ [Core3, Core0, Core3, Core31] ↔ c ∈ [Core31, Core3, Core0])
      ∧ createCoreMaskFromCoreVector [Core3, Core0, Core3, Core31]
          = createCoreMaskFromCoreVector [Core31, Core3, Core0] :=
  ⟨by intro c; simp only [List.mem_cons, List.mem_singleton, List.not_mem_nil]; tauto,
    createCoreMaskFromCoreVector_congr [Core3, Core0, Core3, Core31] [Core31, Core3, Core0]
      (by intro c; simp only [List.mem_cons, List.mem_singleton, List.not_mem_nil]; tauto)⟩

/-- C8: for every list `coreIds` of indices all within `0 .. 31`,
`createCoreMaskFromCoreIds` returns a 32-bit mask whose bit `j`, for every
position `j` in `0 .. 31`, is set if and only if `j` occurs in `coreIds`; the
empty list gives the mask 0. -/
theorem createCoreMaskFromCoreIds_testBit (coreIds : List Int)
    (hrange : ∀ id ∈ coreIds, 0 ≤ id ∧ id < 32) :
    (∃ mask, (createCoreMaskFromCoreIds coreIds).outcome = .returned mask
        ∧ mask < 2 ^ 32
        ∧ ∀ j : Nat, j < 32 → (mask.testBit j = true ↔ (j : Int) ∈ coreIds))
      ∧ (createCoreMaskFromCoreIds []).outcome = .returned 0 := by
  obtain ⟨mask, heq, hlt, hbits⟩ :=
    createCoreMaskFromCoreIdsLoop_spec coreIds 0 [] (by norm_num) hrange
  refine ⟨⟨mask, ?_, hlt, ?_⟩, rfl⟩
  · rw [createCoreMaskFromCoreIds, heq]
  · intro j _
    rw [hbits j]
    simp

theorem createCoreMaskFromCoreIds_testBit_witness :
    (∃ mask, (createCoreMaskFromCoreIds [3, 1, 31, 3]).outcome = .returned mask
        ∧ mask < 2 ^ 32
        ∧ ∀ j : Nat, j < 32 → (mask.testBit j = true ↔ (j : Int) ∈ [3, 1, 31, 3]))
      ∧ (createCoreMaskFromCoreIds []).outcome = .returned 0 :=
  createCoreMaskFromCoreIds_testBit [3, 1, 31, 3] (by decide)

/-- C9: starting from an empty vector, the sequence that
`createCoreVectorFromCoreMask` produces for a 32-bit mask `m` is empty if and
only if `m = 0`; and `createCoreMaskFromCoreVector` of the empty vector is 0. -/
theorem createCoreVectorFromCoreMask_eq_nil_iff (m : Nat) (hm : m < 2 ^ 32) :
    (∃ out, (createCoreVectorFromCoreMask 32 m []).resultVec = some out
        ∧ (out = [] ↔ m = 0))
      ∧ createCoreMaskFromCoreVector [] = 0 := by
  refine ⟨⟨_, createCoreVectorFromCoreMask_resultVec 32 m [] le_rfl hm, ?_⟩, rfl⟩
  rw [← setBits_eq_nil_iff m hm]
  simp

theorem createCoreVectorFromCoreMask_eq_nil_iff_witness :
    (∃ out, (createCoreVectorFromCoreMask 32 0 []).resultVec = some out
        ∧ (out = [] ↔ (0 : Nat) = 0))
      ∧ createCoreMaskFromCoreVector [] = 0 :=
  createCoreVectorFromCoreMask_eq_nil_iff 0 (by norm_num)

/-- C10: for every 32-bit mask, whatever `resultVec` holds,
`createCoreVectorFromCoreMask` terminates after at most 32 executions of the
loop body: 32 units of fuel suffice, the final counter `i` (one increment
per iteration) is at most 32, and more fuel changes nothing. Every subscript
with which it reads `IdToSystemCore` is within `0 .. 31`. -/
theorem createCoreVectorFromCoreMask_terminates (m : Nat) (vec : List SystemCore)
    (hm : m < 2 ^ 32) :
    (∃ st, (createCoreVectorFromCoreMask 32 m vec).outcome = .returned st
        ∧ st.i ≤ 32 ∧ st.coreMask = 0)
      ∧ (∀ fuel, 32 ≤ fuel →
          createCoreVectorFromCoreMask fuel m vec = createCoreVectorFromCoreMask 32 m vec)
      ∧ ∀ r ∈ (createCoreVectorFromCoreMask 32 m vec).reads, 0 ≤ r ∧ r < 32 := by
  obtain ⟨iEnd, hle, heq⟩ := createCoreVectorFromCoreMask_spec m hm
  refine ⟨⟨_, by rw [heq 32 vec le_rfl], hle, rfl⟩, ?_, ?_⟩
  · intro fuel hf
    rw [heq fuel vec hf, heq 32 vec le_rfl]
  · intro r hr
    rw [heq 32 vec le_rfl] at hr
    simp only [List.mem_map, mem_setBits] at hr
    obtain ⟨j, ⟨hj, _⟩, rfl⟩ := hr
    omega

theorem createCoreVectorFromCoreMask_terminates_witness :
    (∃ st, (createCoreVectorFromCoreMask 32 0xFFFFFFFF [Core5]).outcome = .returned st
        ∧ st.i ≤ 32 ∧ st.coreMask = 0)
      ∧ (∀ fuel, 32 ≤ fuel →
          createCoreVectorFromCoreMask fuel 0xFFFFFFFF [Core5]
            = createCoreVectorFromCoreMask 32 0xFFFFFFFF [Core5])
      ∧ ∀ r ∈ (createCoreVectorFromCoreMask 32 0xFFFFFFFF [Core5]).reads, 0 ≤ r ∧ r < 32 :=
  createCoreVectorFromCoreMask_terminates 0xFFFFFFFF [Core5] (by norm_num)

/-! ## Lemmas on the shell executor -/


/-- One call of `fgetsChars` splits the pending bytes into the stored characters
and the bytes left, stores at most `room` characters, stores something when
there is room and something pending, and on a pipe whose end-of-file indicator
is clear sets it only when nothing is left. -/
theorem fgetsChars_spec (room : Nat) :
    ∀ pipe : Pipe,
      (fgetsChars room pipe).1 ++ (fgetsChars room pipe).2.pending = pipe.pending
        ∧ (fgetsChars room pipe).1.length ≤ room
        ∧ (0 < room → pipe.pending ≠ [] → (fgetsChars room pipe).1 ≠ [])
        ∧ (0 < room → pipe.pending = [] → (fgetsChars room pipe).2.eof = true)
        ∧ (pipe.eof = false → (fgetsChars room pipe).2.eof = true →
            (fgetsChars room pipe).2.pending = []) := by
  induction room with
  | zero =>
    intro pipe
    simp only [fgetsChars]
    refine ⟨by simp, by simp, by simp, by simp, ?_⟩
    intro h1 h2
    rw [h1] at h2
    exact absurd h2 (by simp)
  | succ room ih =>
    intro pipe
    rcases pipe with ⟨pending, eof⟩
    cases pending with
    | nil => simp [fgetsChars]
    | cons c rest =>
      by_cases hc : c = 10
      · subst hc
        simp only [fgetsChars, if_true]
        refine ⟨by simp, by simp, by simp, by simp, ?_⟩
        intro h1 h2
        rw [h1] at h2
        exact absurd h2 (by simp)
      · obtain ⟨h1, h2, _, _, h5⟩ := ih { pending := rest, eof := eof }
        simp only [fgetsChars, hc, if_false]
        refine ⟨by simpa using h1, by simpa using h2, by simp, by simp, ?_⟩
        intro he
        exact h5 he

theorem cString_eq_self (buffer : List Nat) (h : ∀ b ∈ buffer, b ≠ 0) :
    cString buffer = buffer := by
  rw [cString, List.takeWhile_eq_self_iff]
  intro b hb
  simpa using h b hb

theorem executeShellCommandLoop_eof (fuel : Nat) (pipe : Pipe) (result : List Nat) (calls : Nat)
    (h : pipe.eof = true) :
    executeShellCommandLoop fuel pipe result calls
      = { fgetsCalls := calls, outcome := .returned result } := by
  cases fuel <;> simp [executeShellCommandLoop, h]

/-- The loop of `executeShellCommand` on a pipe whose pending bytes hold no NUL,
with at least one unit of fuel more than there are pending bytes: it returns
the accumulated string followed by the pending bytes. -/
theorem executeShellCommandLoop_spec (fuel : Nat) :
    ∀ (pipe : Pipe) (result : List Nat) (calls : Nat),
      (pipe.eof = true → pipe.pending = []) →
      (∀ b ∈ pipe.pending, b ≠ 0) →
      pipe.pending.length + 1 ≤ fuel →
      ∃ calls2, executeShellCommandLoop fuel pipe result calls
        = { fgetsCalls := calls2, outcome := .returned (result ++ pipe.pending) } := by
  induction fuel with
  | zero =>
    intro pipe result calls _ _ hf
    omega
  | succ fuel ih =>
    intro pipe result calls hinv hnul hf
    by_cases he : pipe.eof = true
    · refine ⟨calls, ?_⟩
      rw [executeShellCommandLoop_eof _ _ _ _ he, hinv he, List.append_nil]
    · have he2 : pipe.eof = false := by simpa using he
      obtain ⟨h1, _, h3, h4, h5⟩ := fgetsChars_spec 127 pipe
      rw [executeShellCommandLoop]
      simp only [he2, Bool.false_eq_true, if_false, fgets, Nat.add_one_sub_one]
      by_cases hcs : (fgetsChars 127 pipe).1 = []
      · have hpend : pipe.pending = [] := by
          by_contra hne
          exact h3 (by norm_num) hne hcs
        have heof : (fgetsChars 127 pipe).2.eof = true := h4 (by norm_num) hpend
        refine ⟨calls + 1, ?_⟩
        simp only [hcs, if_true]
        rw [executeShellCommandLoop_eof _ _ _ _ heof, hpend, List.append_nil]
      · simp only [hcs, if_false]
        have hsub : ∀ b ∈ (fgetsChars 127 pipe).1, b ≠ 0 := by
          intro b hb
          apply hnul b
          rw [← h1]
          exact List.mem_append_left _ hb
        have hrest : ∀ b ∈ (fgetsChars 127 pipe).2.pending, b ≠ 0 := by
          intro b hb
          apply hnul b
          rw [← h1]
          exact List.mem_append_right _ hb
        have hlen : (fgetsChars 127 pipe).2.pending.length + 1 ≤ fuel := by
          have hl := congrArg List.length h1
          rw [List.length_append] at hl
          have hpos : 0 < (fgetsChars 127 pipe).1.length := List.length_pos.2 hcs
          omega
        obtain ⟨calls2, heq⟩ :=
          ih (fgetsChars 127 pipe).2 (result ++ cString (fgetsChars 127 pipe).1) (calls + 1)
            (h5 he2) hrest hlen
        refine ⟨calls2, ?_⟩
        rw [heq, cString_eq_self _ hsub, List.append_assoc, h1]

theorem fgets_length_le (pipe : Pipe) (buffer : List Nat)
    (h : (fgets 128 pipe).1 = some buffer) : buffer.length ≤ 127 := by
  obtain ⟨_, h2, _⟩ := fgetsChars_spec 127 pipe
  simp only [fgets, Nat.add_one_sub_one] at h
  by_cases hcs : (fgetsChars 127 pipe).1 = []
  · simp [hcs] at h
  · simp only [hcs, if_false, Option.some.injEq] at h
    rw [← h]
    exact h2

/-! ## The claims on the shell executor and the remaining mask laws -/


/-- C11: whenever `POPEN` yields no pipe, for every command string (and whatever
fuel the loop is allowed), `executeShellCommand` returns the literal string
`"ERROR"`, the bytes 69 82 82 79 82, without a single call of `fgets`. -/
theorem executeShellCommand_spawn_failure (fuel : Nat) (POPEN : String → Option (List Nat))
    (command : String) (h : POPEN command = none) :
    executeShellCommand fuel POPEN command
        = { fgetsCalls := 0, outcome := .returned errorSentinel }
      ∧ errorSentinel = [69, 82, 82, 79, 82]
      ∧ String.mk (errorSentinel.map Char.ofNat) = "ERROR" := by
  refine ⟨?_, by decide, by decide⟩
  simp only [executeShellCommand, h]

theorem executeShellCommand_spawn_failure_witness :
    executeShellCommand 0 (fun _ => none) "no-such-command"
        = { fgetsCalls := 0, outcome := .returned errorSentinel }
      ∧ errorSentinel = [69, 82, 82, 79, 82]
      ∧ String.mk (errorSentinel.map Char.ofNat) = "ERROR" :=
  executeShellCommand_spawn_failure 0 (fun _ => none) "no-such-command" rfl

/-- C12, as stated, fails: when the process writes the three bytes `A`, NUL, `B`
(65 0 66), one call of `fgets` reads them all, but `result += buffer` appends
the buffer as a C string and stops at the NUL: the function returns `A` alone,
and with no amount of fuel does it return the whole stream. -/
theorem executeShellCommand_drops_after_NUL :
    executeShellCommand 2 (fun _ => some [65, 0, 66]) "cmd"
        = { fgetsCalls := 1, outcome := .returned [65] }
      ∧ (fgets 128 { pending := [65, 0, 66], eof := false }).1 = some [65, 0, 66]
      ∧ ∀ fuel, (executeShellCommand fuel (fun _ => some [65, 0, 66]) "cmd").outcome
          ≠ .returned [65, 0, 66] := by
  refine ⟨by decide, by decide, ?_⟩
  intro fuel
  cases fuel with
  | zero => decide
  | succ fuel =>
    have hstep : executeShellCommand (fuel + 1) (fun _ => some [65, 0, 66]) "cmd"
        = executeShellCommandLoop fuel { pending := [], eof := true } [65] 1 := by
      simp only [executeShellCommand]
      rw [executeShellCommandLoop]
      rfl
    rw [hstep, executeShellCommandLoop_eof _ _ _ _ rfl]
    decide

/-- C12, amended: when the spawn succeeds and the process's output holds no NUL
byte, `executeShellCommand` returns exactly the bytes the process wrote, in
order, given one unit of fuel more than there are bytes; and every chunk that
`fgets(buffer, 128, pipe)` stores has at most 127 bytes. -/
theorem executeShellCommand_output (fuel : Nat) (POPEN : String → Option (List Nat))
    (command : String) (output : List Nat) (hspawn : POPEN command = some output)
    (hnul : ∀ b ∈ output, b ≠ 0) (hfuel : output.length + 1 ≤ fuel) :
    (executeShellCommand fuel POPEN command).outcome = .returned output
      ∧ ∀ (pipe : Pipe) (buffer : List Nat),
          (fgets 128 pipe).1 = some buffer → buffer.length ≤ 127 := by
  refine ⟨?_, fgets_length_le⟩
  obtain ⟨calls2, heq⟩ :=
    executeShellCommandLoop_spec fuel { pending := output, eof := false } [] 0
      (by intro h; cases h) hnul hfuel
  simp only [executeShellCommand, hspawn, heq, List.nil_append]

theorem executeShellCommand_output_witness :
    (executeShellCommand 7 (fun _ => some [104, 101, 108, 108, 111, 10]) "echo hello").outcome
        = .returned [104, 101, 108, 108, 111, 10]
      ∧ ∀ (pipe : Pipe) (buffer : List Nat),
          (fgets 128 pipe).1 = some buffer → buffer.length ≤ 127 :=
  executeShellCommand_output 7 (fun _ => some [104, 101, 108, 108, 111, 10]) "echo hello"
    [104, 101, 108, 108, 111, 10] rfl (by decide) (by decide)

/-- C13: round trip mask -> cores -> mask. For every 32-bit mask `m`,
`createCoreMaskFromCoreVector` applied to the vector that
`createCoreVectorFromCoreMask` produces for `m` from an empty vector is `m`. -/
theorem createCoreMaskFromCoreVector_createCoreVectorFromCoreMask (m : Nat) (hm : m < 2 ^ 32) :
    ∃ out, (createCoreVectorFromCoreMask 32 m []).resultVec = some out
      ∧ createCoreMaskFromCoreVector out = m := by
  refine ⟨_, createCoreVectorFromCoreMask_resultVec 32 m [] le_rfl hm, ?_⟩
  apply Nat.eq_of_testBit_eq
  intro j
  apply Bool.eq_iff_iff.2
  rw [createCoreMaskFromCoreVector, createCoreMaskFromCoreVectorLoop_testBit _ 0 (by norm_num) j]
  simp only [Nat.zero_testBit, Bool.false_eq_true, false_or, List.nil_append, List.mem_map,
    mem_setBits]
  constructor
  · rintro ⟨c, ⟨i, ⟨_, hi⟩, rfl⟩, _, hbit⟩
    have hij : i = j := by simpa [Nat.testBit_two_pow] using hbit
    rw [← hij]
    exact hi
  · intro hbit
    have hj : j < 32 := by
      by_contra hge
      rw [testBit_false_of_lt_modulus m j hm (by omega)] at hbit
      exact absurd hbit (by simp)
    exact ⟨{ Mask := 2 ^ j, Id := j }, ⟨j, ⟨hj, hbit⟩, rfl⟩, hj, by simp [Nat.testBit_two_pow]⟩

theorem createCoreMaskFromCoreVector_createCoreVectorFromCoreMask_witness :
    ∃ out, (createCoreVectorFromCoreMask 32 0x80000005 []).resultVec = some out
      ∧ createCoreMaskFromCoreVector out = 0x80000005 :=
  createCoreMaskFromCoreVector_createCoreVectorFromCoreMask 0x80000005 (by norm_num)

/-- C14: `createCoreVectorFromCoreMask` appends and never clears. For every
32-bit mask `m` and every initial contents `v` of `resultVec`, the contents
after the call are `v` followed by the sequence produced for `m` from an empty
vector; for `m = 0` the vector is left as it was. -/
theorem createCoreVectorFromCoreMask_appends (m : Nat) (v : List SystemCore) (hm : m < 2 ^ 32) :
    (∃ out, (createCoreVectorFromCoreMask 32 m []).resultVec = some out
        ∧ (createCoreVectorFromCoreMask 32 m v).resultVec = some (v ++ out))
      ∧ (createCoreVectorFromCoreMask 32 0 v).resultVec = some v := by
  refine ⟨⟨_, createCoreVectorFromCoreMask_resultVec 32 m [] le_rfl hm, ?_⟩, rfl⟩
  rw [createCoreVectorFromCoreMask_resultVec 32 m v le_rfl hm]
  simp

theorem createCoreVectorFromCoreMask_appends_witness :
    (∃ out, (createCoreVectorFromCoreMask 32 6 []).resultVec = some out
        ∧ (createCoreVectorFromCoreMask 32 6 [Core9, Core1]).resultVec
            = some ([Core9, Core1] ++ out))
      ∧ (createCoreVectorFromCoreMask 32 0 [Core9, Core1]).resultVec = some [Core9, Core1] :=
  createCoreVectorFromCoreMask_appends 6 [Core9, Core1] (by norm_num)

/-- C15: normalisation. For every list `coreIds` of indices all within `0 .. 31`,
in any order and with any duplicates, `createCoreMaskFromCoreIds` returns a
mask, and the `Id` fields of the vector that `createCoreVectorFromCoreMask`
produces for it from an empty vector are the sorted, deduplicated elements of
`coreIds`: a strictly increasing list with the same members as `coreIds`. -/
theorem createCoreVectorFromCoreMask_normalises (coreIds : List Int)
    (hrange : ∀ id ∈ coreIds, 0 ≤ id ∧ id < 32) :
    (∃ mask st,
        (createCoreMaskFromCoreIds coreIds).outcome = .returned mask
          ∧ (createCoreVectorFromCoreMask 32 mask []).outcome = .returned st
          ∧ st.resultVec.map (fun c => (c.Id : Int)) = sortedUnique coreIds)
      ∧ (sortedUnique coreIds).Pairwise (· < ·)
      ∧ ∀ x, x ∈ sortedUnique coreIds ↔ x ∈ coreIds := by
  have hsorted : (sortedUnique coreIds).Pairwise (· < ·) :=
    Finset.sort_sorted_lt coreIds.toFinset
  have hmem : ∀ x, x ∈ sortedUnique coreIds ↔ x ∈ coreIds := by
    intro x
    simp [sortedUnique]
  refine ⟨?_, hsorted, hmem⟩
  obtain ⟨mask, heq, hlt, hbits⟩ :=
    createCoreMaskFromCoreIdsLoop_spec coreIds 0 [] (by norm_num) hrange
  obtain ⟨iEnd, _, hrun⟩ := createCoreVectorFromCoreMask_spec mask hlt
  have hrun := hrun 32 [] le_rfl
  refine ⟨mask,
    { coreMask := 0, i := iEnd,
      resultVec := [] ++ (setBits mask).map (fun j => ({ Mask := 2 ^ j, Id := j } : SystemCore)) },
    ?_, ?_, ?_⟩
  · rw [createCoreMaskFromCoreIds, heq]
  · rw [hrun]
  · have hb : ∀ j : Nat, mask.testBit j = true ↔ (j : Int) ∈ sortedUnique coreIds := by
      intro j
      rw [hbits j, hmem]
      simp
    have hr : ∀ id ∈ sortedUnique coreIds, 0 ≤ id ∧ id < 32 :=
      fun id hid => hrange id ((hmem id).1 hid)
    simpa [List.map_map, Function.comp] using
      setBits_cast_eq mask (sortedUnique coreIds) hsorted hr hb

theorem createCoreVectorFromCoreMask_normalises_witness :
    (∃ mask st,
        (createCoreMaskFromCoreIds [3, 1, 31, 3]).outcome = .returned mask
          ∧ (createCoreVectorFromCoreMask 32 mask []).outcome = .returned st
          ∧ st.resultVec.map (fun c => (c.Id : Int)) = sortedUnique [3, 1, 31, 3])
      ∧ (sortedUnique [3, 1, 31, 3]).Pairwise (· < ·)
      ∧ ∀ x, x ∈ sortedUnique [3, 1, 31, 3] ↔ x ∈ [3, 1, 31, 3] :=
  createCoreVectorFromCoreMask_normalises [3, 1, 31, 3] (by decide)

/-- C16: when `getNumOfCores` returns a non-positive value (zero or a negative
failure sentinel), `getCoreMaskForAllMachineCores` returns the empty mask 0 and
subscripts `IdToSystemCore` not once. -/
theorem getCoreMaskForAllMachineCores_nonpositive (numOfCores : Int) (h : numOfCores ≤ 0) :
    getCoreMaskForAllMachineCores numOfCores = { reads := [], outcome := .returned 0 } := by
  rw [getCoreMaskForAllMachineCores, Int.toNat_of_nonpos h]
  rfl

theorem getCoreMaskForAllMachineCores_nonpositive_witness :
    getCoreMaskForAllMachineCores (-1) = { reads := [], outcome := .returned 0 } :=
  getCoreMaskForAllMachineCores_nonpositive (-1) (by decide)

end SystemUtils
